import Mathlib

/-!
# afrl_driver: steering filter, error history, event router, turn manoeuvre

A shallow embedding of `src/driver.cpp` (class `AFRL_Driver`).

* A C++ `double` that takes part in the control arithmetic is an exact
  rational (`ℚ`): rounding is not modelled, and an arithmetic expression of the
  model stands for the double expression of the same shape in the code.  The
  results about the steering filter and the turn target use such values only
  through comparisons, or at inputs on which the double operations of the code
  are exact.
* A laser reading may also be infinite or not-a-number, so readings are values
  of `Dbl`.
* `std::vector<double> errors` is a `List ℚ`, front of the vector first.  A read
  outside the vector and a `pop_back` on an empty vector are undefined in C++;
  here they make the enclosing function return `none`.
* The header `afrl_driver/driver.h` is not part of the sources.  Its numeric
  constants are the fields of `Config`.
* A callback that calls `turnOdom` records the call in `Driver.turnCalls`.
  `turnOdom` itself runs against the list of measurements that the transform
  listener hands to its polling loop, one per pass; it yields `none` when the
  loop is still running after the last of them.
-/

namespace AFRL

/-- Constants of `afrl_driver/driver.h`, which the sources use by name only. -/
structure Config where
  Kp : ℚ
  Ki : ℚ
  Kd : ℚ
  CONTROL_THRESHOLD : ℚ
  ROTATE_SPEED_MAX : ℚ
  ROTATE_CONTROL_STEP : ℚ
  PID_VECTOR_SIZE : ℕ
  PROXIMITY_RANGE_M : ℚ
  MSG_RANGES_MAX : ℕ
  MSG_RANGES_MIN : ℕ
  MSG_RANGES_OFFSET : ℕ
  MSG_RANGES_ANGLE : ℕ

/-- A `double` as delivered by the range sensor: finite, infinite or NaN. -/
inductive Dbl where
  | fin (q : ℚ)
  | pinf
  | ninf
  | nan
  deriving DecidableEq

namespace Dbl

/-- C `isinf`. -/
def isinf : Dbl → Bool
  | pinf => true
  | ninf => true
  | _ => false

/-- C `isnan`. -/
def isnan : Dbl → Bool
  | nan => true
  | _ => false

/-- IEEE `<`: false as soon as one side is NaN. -/
def lt : Dbl → Dbl → Bool
  | nan, _ => false
  | _, nan => false
  | fin a, fin b => decide (a < b)
  | fin _, pinf => true
  | fin _, ninf => false
  | pinf, _ => false
  | ninf, ninf => false
  | ninf, _ => true

end Dbl

/-- Modelled from the spec: the enumeration behind `fsm`, declared in the
missing header; the spec names two states, moving forward and turning. -/
inductive FSM where
  | FSM_MOVE_FORWARD
  | FSM_ROTATE
  deriving DecidableEq

/-- The value of the C constant `M_PI` (the double nearest to pi). -/
def M_PI : ℚ := 884279719003555 / 281474976710656

/-- The arguments of one call `turnOdom(clockwise, radians, backtrack)`. -/
structure TurnCall where
  clockwise : Bool
  radians : ℚ
  backtrack : Bool
  deriving DecidableEq

/-- The part of `sensor_msgs::LaserScan` the driver reads. -/
structure LaserScan where
  ranges : List Dbl

/-- The mutable members of the driver.  `turnCalls` records, oldest first, the
calls of `turnOdom` made so far; `turnOdom` itself writes none of the other
members. -/
structure Driver where
  fsm : FSM
  errors : List ℚ
  error : ℚ
  pError : ℚ
  control : ℚ
  turnCalls : List TurnCall

/-- The loop `for (i = 0; i < n; i++) errors.push_back(0.0)`, with `n`
iterations left. -/
def fillErrors : ℕ → List ℚ → List ℚ
  | 0, errors => errors
  | n + 1, errors => fillErrors n (errors ++ [0])

/-- Modelled from the spec: the value of the members `control`, `pError` and
`error` at startup.  They are declared in the missing header and the
constructor does not assign them; the spec has them initialised to zero. -/
def startValue : ℚ := 0

/-- The constructor: `fsm(FSM_MOVE_FORWARD)` and the error vector filled with
`PID_VECTOR_SIZE` zeros. -/
def AFRL_Driver (cfg : Config) : Driver :=
  { fsm := FSM.FSM_MOVE_FORWARD
    errors := fillErrors cfg.PID_VECTOR_SIZE []
    error := startValue
    pError := startValue
    control := startValue
    turnCalls := [] }

/-- The vector operation `pop_back`; undefined on an empty vector. -/
def pop_back : List ℚ → Option (List ℚ)
  | [] => none
  | x :: xs => some ((x :: xs).dropLast)

/-- The vector operation `v.insert(v.begin(), e)`. -/
def insert_begin (v : List ℚ) (e : ℚ) : List ℚ := e :: v

/-- The index offset `MSG_RANGES_MAX * MSG_RANGES_OFFSET / MSG_RANGES_ANGLE`
(integer division; undefined for a zero divisor). -/
def sideOffset (cfg : Config) : Option ℕ :=
  if cfg.MSG_RANGES_ANGLE = 0 then none
  else some (cfg.MSG_RANGES_MAX * cfg.MSG_RANGES_OFFSET / cfg.MSG_RANGES_ANGLE)

/-- The three readings `midDist`, `rightDist`, `leftDist` taken from the scan,
in that order. -/
def readDists (cfg : Config) (msg : LaserScan) : Option (Dbl × Dbl × Dbl) :=
  match msg.ranges[cfg.MSG_RANGES_MAX / 2]?, sideOffset cfg with
  | some midDist, some off =>
    if off ≤ cfg.MSG_RANGES_MAX then
      match msg.ranges[cfg.MSG_RANGES_MIN + off]?, msg.ranges[cfg.MSG_RANGES_MAX - off]? with
      | some rightDist, some leftDist => some (midDist, rightDist, leftDist)
      | _, _ => none
    else none
  | _, _ => none

/-- The statement `if (isinf(x)) x = PROXIMITY_RANGE_M;`. -/
def clampInf (cfg : Config) (x : Dbl) : Dbl :=
  if x.isinf then Dbl.fin cfg.PROXIMITY_RANGE_M else x

/-- The statement `if (midDist < 0.5) turnOdom(true, M_PI/4, true);`. -/
def frontCheck (midDist : Dbl) (d : Driver) : Driver :=
  if midDist.lt (Dbl.fin (1 / 2)) then
    { d with turnCalls := d.turnCalls ++ [⟨true, M_PI / 4, true⟩] }
  else d

/-- The block guarded by `!isnan(leftDist) && !isnan(rightDist)`: the sample
`leftDist - rightDist` replaces the last entry at the front.  Both readings
have passed `clampInf`, so a reading that is not NaN is finite. -/
def pushSample (leftDist rightDist : Dbl) (d : Driver) : Option Driver :=
  if (!leftDist.isnan && !rightDist.isnan) = true then
    match leftDist, rightDist with
    | Dbl.fin l, Dbl.fin r =>
      match pop_back d.errors with
      | some es => some { d with errors := insert_begin es (l - r) }
      | none => none
    | _, _ => none
  else some d

/-- The laser callback `commandCallBack`. -/
def commandCallBack (cfg : Config) (msg : LaserScan) (d : Driver) : Option Driver :=
  if d.fsm = FSM.FSM_MOVE_FORWARD then
    match readDists cfg msg with
    | some (midDist, rightDist, leftDist) =>
      pushSample (clampInf cfg leftDist) (clampInf cfg rightDist) (frontCheck midDist d)
    | none => none
  else some d

/-- The loop of `summation`: `k` iterations left, index `i`, running total
`tot`, with exact additions. -/
def summationLoop (errors : List ℚ) : ℕ → ℕ → ℚ → Option ℚ
  | 0, _, tot => some tot
  | k + 1, i, tot =>
    match errors[i]? with
    | some x => summationLoop errors k (i + 1) (tot + x)
    | none => none

/-- The member function `summation`. -/
def summation (cfg : Config) (errors : List ℚ) : Option ℚ :=
  summationLoop errors cfg.PID_VECTOR_SIZE 0 0

/-- The combined error computed at the top of `PID_control`. -/
def pidError (cfg : Config) (errors : List ℚ) : Option ℚ :=
  match errors[0]?, summation cfg errors, errors[1]? with
  | some e0, some tot, some e1 =>
    let previousError := e0 * cfg.Kp
    let integral := tot * cfg.Ki
    let derivative := (e0 - e1) * cfg.Kd
    some (derivative + previousError + integral)
  | _, _, _ => none

/-- The `if / else if / else if` chain of `PID_control`: the new `control`.
`fabs(error < CONTROL_THRESHOLD)` takes the absolute value of the comparison
result converted to 1.0 or 0.0. -/
def controlUpdate (cfg : Config) (error pError control : ℚ) : ℚ :=
  if error > cfg.CONTROL_THRESHOLD ∧ control < cfg.ROTATE_SPEED_MAX then
    if pError < 0 then 0 else control + cfg.ROTATE_CONTROL_STEP
  else if error < cfg.CONTROL_THRESHOLD ∧ control > -1 * cfg.ROTATE_SPEED_MAX then
    if pError > 0 then 0 else control - cfg.ROTATE_CONTROL_STEP
  else if |if error < cfg.CONTROL_THRESHOLD then (1 : ℚ) else 0| ≠ 0 then 0
  else control

/-- The timer callback `PID_control`: one tick of the steering filter. -/
def PID_control (cfg : Config) (d : Driver) : Option Driver :=
  match pidError cfg d.errors with
  | some error =>
    some { d with
      error := error
      control := controlUpdate cfg error d.pError d.control
      pError := error }
  | none => none

/-- A run of the steering filter: before each tick the error history holds the
next element of `hs`. -/
def runTicks (cfg : Config) : List (List ℚ) → Driver → Option Driver
  | [], d => some d
  | h :: hs, d =>
    match PID_control cfg { d with errors := h } with
    | some d1 => runTicks cfg hs d1
    | none => none

/-- One range-sample event after the other. -/
def runScans (cfg : Config) : List LaserScan → Driver → Option Driver
  | [], d => some d
  | msg :: msgs, d =>
    match commandCallBack cfg msg d with
    | some d1 => runScans cfg msgs d1
    | none => none

/-- The branch of the `if / else if / else if` chain of `PID_control` that a
tick takes: the guards are those of `controlUpdate`, in the same order. -/
inductive Branch where
  | raise
  | lower
  | band
  | skip
  deriving DecidableEq

/-- The branch selected by the guards of `PID_control`. -/
def controlBranch (cfg : Config) (error control : ℚ) : Branch :=
  if error > cfg.CONTROL_THRESHOLD ∧ control < cfg.ROTATE_SPEED_MAX then Branch.raise
  else if error < cfg.CONTROL_THRESHOLD ∧ control > -1 * cfg.ROTATE_SPEED_MAX then Branch.lower
  else if |if error < cfg.CONTROL_THRESHOLD then (1 : ℚ) else 0| ≠ 0 then Branch.band
  else Branch.skip

/-- The part of `kobuki_msgs::BumperEvent` the driver reads; both fields are
of type `uint8`. -/
structure BumperEvent where
  bumper : ℕ
  state : ℕ

namespace BumperEvent

/-- The message constant `LEFT`. -/
def LEFT : ℕ := 0

/-- The message constant `CENTER`. -/
def CENTER : ℕ := 1

/-- The message constant `RIGHT`. -/
def RIGHT : ℕ := 2

/-- The message constant `RELEASED`. -/
def RELEASED : ℕ := 0

/-- The message constant `PRESSED`. -/
def PRESSED : ℕ := 1

end BumperEvent

/-- A call of `turnOdom` made by a callback, recorded in `turnCalls`. -/
def callTurnOdom (clockwise : Bool) (radians : ℚ) (backtrack : Bool) (d : Driver) : Driver :=
  { d with turnCalls := d.turnCalls ++ [⟨clockwise, radians, backtrack⟩] }

/-- The bumper callback `bumperCallBack`: a `switch` on `msg->bumper` without a
default case, inside `if (msg->state == PRESSED)`. -/
def bumperCallBack (msg : BumperEvent) (d : Driver) : Driver :=
  if msg.state = BumperEvent.PRESSED then
    if msg.bumper = BumperEvent.LEFT then callTurnOdom true (M_PI / 4) true d
    else if msg.bumper = BumperEvent.RIGHT then callTurnOdom false (M_PI / 4) true d
    else if msg.bumper = BumperEvent.CENTER then callTurnOdom true (M_PI / 4) true d
    else d
  else d

/-- A `tf::Vector3` with exact coordinates. -/
structure Vector3 where
  x : ℚ
  y : ℚ
  z : ℚ
  deriving DecidableEq

namespace Vector3

/-- The member function `dot`. -/
def dot (a b : Vector3) : ℚ := a.x * b.x + a.y * b.y + a.z * b.z

/-- Unary minus. -/
def neg (a : Vector3) : Vector3 := ⟨-a.x, -a.y, -a.z⟩

end Vector3

/-- What one pass of the polling loop of `turnOdom` obtains from the transform
listener: the axis and the angle of the rotation of `relative_transform`. -/
structure Poll where
  axis : Vector3
  angle : ℚ

/-- The loop `while (radians < 0) radians += 2*M_PI;`, with exact additions. -/
def normalizeUp (radians : ℚ) : ℚ :=
  if radians < 0 then normalizeUp (radians + 2 * M_PI) else radians
termination_by ⌈-radians / (2 * M_PI)⌉₊
decreasing_by
  rename_i h
  have h2 : 0 < 2 * M_PI := by norm_num [M_PI]
  have hpos : 0 < -radians / (2 * M_PI) := div_pos (by linarith) h2
  have heq : -(radians + 2 * M_PI) / (2 * M_PI) = -radians / (2 * M_PI) - 1 := by
    field_simp
    ring
  rw [heq, Nat.lt_ceil]
  by_cases hc : 0 ≤ -radians / (2 * M_PI) - 1
  · linarith [Nat.ceil_lt_add_one hc]
  · rw [Nat.ceil_eq_zero.mpr (not_le.mp hc).le]
    simpa using hpos

/-- The loop `while (radians > 2*M_PI) radians -= 2*M_PI;`, with exact
subtractions. -/
def normalizeDown (radians : ℚ) : ℚ :=
  if radians > 2 * M_PI then normalizeDown (radians - 2 * M_PI) else radians
termination_by ⌈radians / (2 * M_PI)⌉₊
decreasing_by
  rename_i h
  have h2 : 0 < 2 * M_PI := by norm_num [M_PI]
  have hpos : 0 < radians / (2 * M_PI) := div_pos (by linarith) h2
  have heq : (radians - 2 * M_PI) / (2 * M_PI) = radians / (2 * M_PI) - 1 := by
    field_simp
  rw [heq, Nat.lt_ceil]
  by_cases hc : 0 ≤ radians / (2 * M_PI) - 1
  · linarith [Nat.ceil_lt_add_one hc]
  · rw [Nat.ceil_eq_zero.mpr (not_le.mp hc).le]
    simpa using hpos

/-- The two normalisation loops at the start of `turnOdom`, in their order. -/
def normalizeRadians (radians : ℚ) : ℚ := normalizeDown (normalizeUp radians)

/-- The vector `desired_turn_axis`: `(0,0,1)`, negated when `clockwise` is
false. -/
def desired_turn_axis (clockwise : Bool) : Vector3 :=
  if clockwise = false then Vector3.neg ⟨0, 0, 1⟩ else ⟨0, 0, 1⟩

/-- The value of `angle_turned` that reaches the comparison with `radians`:
`2 * M_PI - angle_turned` when the dot product of the measured and the desired
axis is negative. -/
def correctedAngle (desired : Vector3) (p : Poll) : ℚ :=
  if p.axis.dot desired < 0 then 2 * M_PI - p.angle else p.angle

/-- One pass of the body of `while (!done)`: the value of `done` after it.  A
measurement with `fabs(angle_turned) < 1.0e-2` takes the `continue`. -/
def pollDone (desired : Vector3) (radians : ℚ) (p : Poll) : Bool :=
  if |p.angle| < 1 / 100 then false
  else if correctedAngle desired p > radians then true
  else false

/-- The loop `while (!done)` run on the measurements `polls`, one per pass,
after `n` earlier passes: the number of passes made when `done` becomes true,
or `none` when the loop is still running after the last measurement. -/
def turnLoop (desired : Vector3) (radians : ℚ) : List Poll → ℕ → Option ℕ
  | [], _ => none
  | p :: ps, n =>
    if pollDone desired radians p = true then some (n + 1)
    else turnLoop desired radians ps (n + 1)

/-- The number of passes of the polling loop that `turnOdom` makes before it
returns. -/
def turnPasses (clockwise : Bool) (radians : ℚ) (polls : List Poll) : Option ℕ :=
  turnLoop (desired_turn_axis clockwise) (normalizeRadians radians) polls 0

/-- The function `turnOdom` run against the measurements `polls`: its return
value, or `none` when the polling loop is still running after the last
measurement.  The velocity command it publishes on every pass (built from
`clockwise` and `backtrack`) has no influence on the result. -/
def turnOdom (clockwise : Bool) (radians : ℚ) (_backtrack : Bool) (polls : List Poll) :
    Option Bool :=
  match turnPasses clockwise radians polls with
  | some _ => some true
  | none => none

/-- The clamp as the spec words it: the fixed maximum range constant for an
infinite reading, the reading itself otherwise; a NaN reading has no clamped
value. -/
def specClamp (cfg : Config) : Dbl → Option ℚ
  | Dbl.fin q => some q
  | Dbl.pinf => some cfg.PROXIMITY_RANGE_M
  | Dbl.ninf => some cfg.PROXIMITY_RANGE_M
  | Dbl.nan => none

/-! ## Concrete configurations and states used as test inputs -/

/-- A configuration with `Kp = 1`, `Ki = Kd = 0`, threshold `1/10`, cap `1/2`,
step `1/5` and five history entries: the combined error is `errors[0]`. -/
def cfgA : Config :=
  { Kp := 1, Ki := 0, Kd := 0
    CONTROL_THRESHOLD := 1 / 10
    ROTATE_SPEED_MAX := 1 / 2
    ROTATE_CONTROL_STEP := 1 / 5
    PID_VECTOR_SIZE := 5
    PROXIMITY_RANGE_M := 4
    MSG_RANGES_MAX := 10
    MSG_RANGES_MIN := 0
    MSG_RANGES_OFFSET := 1
    MSG_RANGES_ANGLE := 4 }

/-- As `cfgA`, with threshold `1/8`, cap `1` and step `3/4`: every value the
steering filter computes from it and from the histories `hist 1` and
`hist (-1)` is a small multiple of `1/4`, so each double operation of the code
is exact on them. -/
def cfgD : Config :=
  { cfgA with CONTROL_THRESHOLD := 1 / 8, ROTATE_SPEED_MAX := 1, ROTATE_CONTROL_STEP := 3 / 4 }

/-- A driver in forward motion with the given history, previous error and
control. -/
def mkDriver (errors : List ℚ) (pError control : ℚ) : Driver :=
  { fsm := FSM.FSM_MOVE_FORWARD
    errors := errors
    error := 0
    pError := pError
    control := control
    turnCalls := [] }

/-- A history whose newest entry is `e`, the other four being zero. -/
def hist (e : ℚ) : List ℚ := [e, 0, 0, 0, 0]

/-- A scan of eleven readings: `mid` at index 5, `right` at index 2, `left` at
index 8 (the indices `cfgA` selects), one metre elsewhere. -/
def mkScan (mid right left : Dbl) : LaserScan :=
  { ranges := [Dbl.fin 1, Dbl.fin 1, right, Dbl.fin 1, Dbl.fin 1, mid,
               Dbl.fin 1, Dbl.fin 1, left, Dbl.fin 1, Dbl.fin 1] }

theorem fillErrors_length (n : ℕ) (errors : List ℚ) :
    (fillErrors n errors).length = errors.length + n := by
  induction n generalizing errors with
  | zero => simp [fillErrors]
  | succ n ih => simp [fillErrors, ih]; omega

theorem fillErrors_eq (n : ℕ) (errors : List ℚ) :
    fillErrors n errors = errors ++ List.replicate n 0 := by
  induction n generalizing errors with
  | zero => simp [fillErrors]
  | succ n ih =>
    simp [fillErrors, ih, List.replicate_succ]

theorem PID_control_of_pidError (cfg : Config) (d : Driver) (e : ℚ)
    (h : pidError cfg d.errors = some e) :
    PID_control cfg d =
      some { d with error := e, control := controlUpdate cfg e d.pError d.control, pError := e } := by
  simp [PID_control, h]

theorem pop_back_eq (h : List ℚ) (hpos : 0 < h.length) :
    pop_back h = some (h.take (h.length - 1)) := by
  cases h with
  | nil => simp at hpos
  | cons x xs => simp [pop_back, List.dropLast_eq_take]

theorem clampInf_not_isinf (cfg : Config) (x : Dbl) : (clampInf cfg x).isinf = false := by
  cases x <;> simp [clampInf, Dbl.isinf]

theorem frontCheck_errors (mid : Dbl) (d : Driver) : (frontCheck mid d).errors = d.errors := by
  unfold frontCheck
  split <;> rfl

theorem frontCheck_fsm (mid : Dbl) (d : Driver) : (frontCheck mid d).fsm = d.fsm := by
  unfold frontCheck
  split <;> rfl

theorem pushSample_length (l r : Dbl) (d : Driver) (hl : l.isinf = false) (hr : r.isinf = false)
    (hpos : 0 < d.errors.length) :
    ∃ d1, pushSample l r d = some d1 ∧ d1.errors.length = d.errors.length ∧ d1.fsm = d.fsm := by
  have hp := pop_back_eq d.errors hpos
  cases l <;> cases r <;> simp_all [pushSample, Dbl.isnan, Dbl.isinf, insert_begin]
  omega

theorem commandCallBack_length (cfg : Config) (msg : LaserScan) (d : Driver)
    (hmsg : (readDists cfg msg).isSome = true) (hpos : 0 < d.errors.length) :
    ∃ d1, commandCallBack cfg msg d = some d1 ∧ d1.errors.length = d.errors.length := by
  unfold commandCallBack
  split
  · obtain ⟨⟨mid, r, l⟩, hread⟩ := Option.isSome_iff_exists.mp hmsg
    rw [hread]
    obtain ⟨d1, h1, h2, _⟩ := pushSample_length (clampInf cfg l) (clampInf cfg r) (frontCheck mid d)
      (clampInf_not_isinf cfg l) (clampInf_not_isinf cfg r) (by rw [frontCheck_errors]; exact hpos)
    exact ⟨d1, h1, by rw [h2, frontCheck_errors]⟩
  · exact ⟨d, rfl, rfl⟩

theorem runScans_length (cfg : Config) (msgs : List LaserScan) (d : Driver)
    (hmsgs : ∀ m ∈ msgs, (readDists cfg m).isSome = true) (hpos : 0 < d.errors.length) :
    ∃ d1, runScans cfg msgs d = some d1 ∧ d1.errors.length = d.errors.length := by
  induction msgs generalizing d with
  | nil => exact ⟨d, rfl, rfl⟩
  | cons m ms ih =>
    obtain ⟨d1, h1, h2⟩ := commandCallBack_length cfg m d (hmsgs m (by simp)) hpos
    obtain ⟨d2, h3, h4⟩ := ih d1 (fun x hx => hmsgs x (by simp [hx])) (by omega)
    exact ⟨d2, by simp [runScans, h1, h3], by omega⟩

/-! ## The error history (C7, C8, C10) -/

/-- C7: for a positive `PID_VECTOR_SIZE`, the error history has exactly
`PID_VECTOR_SIZE` entries after construction, and after any sequence of
range-sample events handled by `commandCallBack` (each scan long enough for the
three reads) the callback returns and the history still has exactly
`PID_VECTOR_SIZE` entries, whether samples were pushed or discarded. -/
theorem error_history_length_invariant (cfg : Config) (hN : 0 < cfg.PID_VECTOR_SIZE)
    (msgs : List LaserScan) (hmsgs : ∀ m ∈ msgs, (readDists cfg m).isSome = true) :
    (AFRL_Driver cfg).errors.length = cfg.PID_VECTOR_SIZE ∧
      ∃ d1, runScans cfg msgs (AFRL_Driver cfg) = some d1 ∧
        d1.errors.length = cfg.PID_VECTOR_SIZE := by
  have h0 : (AFRL_Driver cfg).errors.length = cfg.PID_VECTOR_SIZE := by
    simp [AFRL_Driver, fillErrors_length]
  refine ⟨h0, ?_⟩
  obtain ⟨d1, h1, h2⟩ := runScans_length cfg msgs (AFRL_Driver cfg) hmsgs (by omega)
  exact ⟨d1, h1, by omega⟩

/-- Witness of C7: three scans (a valid one, one with a NaN side reading, one
with an infinite side reading) after construction with five entries. -/
theorem error_history_length_invariant_witness :
    0 < cfgA.PID_VECTOR_SIZE ∧
      ((AFRL_Driver cfgA).errors.length = cfgA.PID_VECTOR_SIZE ∧
        ∃ d1, runScans cfgA
            [mkScan (Dbl.fin 1) (Dbl.fin 2) (Dbl.fin 3), mkScan (Dbl.fin 1) Dbl.nan (Dbl.fin 3),
              mkScan (Dbl.fin 1) Dbl.pinf (Dbl.fin 3)] (AFRL_Driver cfgA) = some d1 ∧
          d1.errors.length = cfgA.PID_VECTOR_SIZE) :=
  ⟨by decide, error_history_length_invariant cfgA (by decide) _ (by
    simp [readDists, sideOffset, mkScan, cfgA])⟩

/-- C8: in forward motion, for a history of length `N ≥ 1` and a scan whose
clamped side readings are the finite values `lq` and `rq`, `commandCallBack`
returns a history that is the sample `lq - rq` followed by the first `N - 1`
former entries in their order: the sample is at index 0, entry `i` moves to
index `i + 1`, the former last entry is gone and the length is unchanged. -/
theorem commandCallBack_pushes_front (cfg : Config) (msg : LaserScan) (d : Driver)
    (mid r l : Dbl) (lq rq : ℚ)
    (hfsm : d.fsm = FSM.FSM_MOVE_FORWARD)
    (hread : readDists cfg msg = some (mid, r, l))
    (hl : clampInf cfg l = Dbl.fin lq) (hr : clampInf cfg r = Dbl.fin rq)
    (hN : 1 ≤ d.errors.length) :
    ∃ d1, commandCallBack cfg msg d = some d1 ∧
      d1.errors = (lq - rq) :: d.errors.take (d.errors.length - 1) ∧
      d1.errors.length = d.errors.length ∧
      d1.errors[0]? = some (lq - rq) ∧
      (∀ i, i + 1 < d.errors.length → d1.errors[i + 1]? = d.errors[i]?) ∧
      (∀ i, d.errors.length ≤ i → d1.errors[i]? = none) := by
  have hp := pop_back_eq d.errors (by omega)
  refine ⟨{ frontCheck mid d with
      errors := (lq - rq) :: d.errors.take (d.errors.length - 1) }, ?_, rfl, ?_, ?_, ?_, ?_⟩
  · simp [commandCallBack, hfsm, hread, hl, hr, pushSample, Dbl.isnan, frontCheck_errors, hp,
      insert_begin]
  · simp only [List.length_cons, List.length_take]
    omega
  · simp
  · intro i hi
    simp only [List.getElem?_cons_succ]
    rw [List.getElem?_take_of_lt (by omega)]
  · intro i hi
    apply List.getElem?_eq_none
    simp only [List.length_cons, List.length_take]
    omega

/-- Witness of C8: the sample `3 - 2 = 1` pushed onto `[5, 6, 7, 8, 9]`. -/
theorem commandCallBack_pushes_front_witness :
    ∃ d1, commandCallBack cfgA (mkScan (Dbl.fin 1) (Dbl.fin 2) (Dbl.fin 3))
        (mkDriver [5, 6, 7, 8, 9] 0 0) = some d1 ∧
      d1.errors = (3 - 2) :: ([5, 6, 7, 8, 9] : List ℚ).take (5 - 1) ∧
      d1.errors.length = 5 ∧
      d1.errors[0]? = some (3 - 2) ∧
      (∀ i, i + 1 < 5 → d1.errors[i + 1]? = ([5, 6, 7, 8, 9] : List ℚ)[i]?) ∧
      (∀ i, 5 ≤ i → d1.errors[i]? = none) :=
  commandCallBack_pushes_front cfgA (mkScan (Dbl.fin 1) (Dbl.fin 2) (Dbl.fin 3))
    (mkDriver [5, 6, 7, 8, 9] 0 0) (Dbl.fin 1) (Dbl.fin 2) (Dbl.fin 3) 3 2 rfl
    (by simp [readDists, sideOffset, mkScan, cfgA])
    (by simp [clampInf, Dbl.isinf]) (by simp [clampInf, Dbl.isinf]) (by simp [mkDriver])

/-- C10: when the left or the right side reading of a scan is NaN,
`commandCallBack` returns and leaves the error history unchanged. -/
theorem commandCallBack_nan_keeps_history (cfg : Config) (msg : LaserScan) (d : Driver)
    (mid r l : Dbl)
    (hread : readDists cfg msg = some (mid, r, l))
    (hnan : l.isnan = true ∨ r.isnan = true) :
    ∃ d1, commandCallBack cfg msg d = some d1 ∧ d1.errors = d.errors := by
  unfold commandCallBack
  split
  · rw [hread]
    refine ⟨frontCheck mid d, ?_, frontCheck_errors mid d⟩
    rcases hnan with h | h
    · cases l <;> simp_all [Dbl.isnan, pushSample, clampInf, Dbl.isinf]
    · cases r <;> simp_all [Dbl.isnan, pushSample, clampInf, Dbl.isinf]
  · exact ⟨d, rfl, rfl⟩

/-- Witness of C10: a NaN right reading, the centre reading below half a metre. -/
theorem commandCallBack_nan_keeps_history_witness :
    ∃ d1, commandCallBack cfgA (mkScan (Dbl.fin (3 / 10)) Dbl.nan (Dbl.fin 3))
        (mkDriver [5, 6, 7, 8, 9] 0 0) = some d1 ∧
      d1.errors = (mkDriver [5, 6, 7, 8, 9] 0 0).errors :=
  commandCallBack_nan_keeps_history cfgA (mkScan (Dbl.fin (3 / 10)) Dbl.nan (Dbl.fin 3))
    (mkDriver [5, 6, 7, 8, 9] 0 0) (Dbl.fin (3 / 10)) Dbl.nan (Dbl.fin 3)
    (by simp [readDists, sideOffset, mkScan, cfgA]) (Or.inr rfl)

/-! ## The steering filter: caps, band and resets (C1 to C6) -/

theorem fabs_flag_ne_zero (c : Prop) [Decidable c] :
    |if c then (1 : ℚ) else 0| ≠ 0 ↔ c := by
  by_cases h : c <;> simp [h]

/-- The chain of `controlUpdate` with the third guard reduced to the comparison
it wraps. -/
theorem controlUpdate_eq (cfg : Config) (e p c : ℚ) :
    controlUpdate cfg e p c =
      if e > cfg.CONTROL_THRESHOLD ∧ c < cfg.ROTATE_SPEED_MAX then
        if p < 0 then 0 else c + cfg.ROTATE_CONTROL_STEP
      else if e < cfg.CONTROL_THRESHOLD ∧ c > -1 * cfg.ROTATE_SPEED_MAX then
        if p > 0 then 0 else c - cfg.ROTATE_CONTROL_STEP
      else if e < cfg.CONTROL_THRESHOLD then 0
      else c := by
  unfold controlUpdate
  simp only [fabs_flag_ne_zero]

/-- C1 fails on the code: from the startup state, with cap `1` and step `3/4`,
two ticks with combined error `-1` leave `control = -3/2`, outside `[-1, 1]`: the
cap is tested before the step is subtracted and the result is not clamped. -/
theorem control_leaves_cap_interval :
    0 < cfgD.ROTATE_SPEED_MAX ∧ 0 < cfgD.ROTATE_CONTROL_STEP ∧
      (AFRL_Driver cfgD).control = 0 ∧ (AFRL_Driver cfgD).pError = 0 ∧
      (runTicks cfgD [hist (-1)] (AFRL_Driver cfgD)).map Driver.control = some (-(3 / 4)) ∧
      (runTicks cfgD [hist (-1), hist (-1)] (AFRL_Driver cfgD)).map Driver.control
        = some (-(3 / 2)) ∧
      ¬ (-cfgD.ROTATE_SPEED_MAX ≤ -(3 / 2) ∧ (-(3 / 2) : ℚ) ≤ cfgD.ROTATE_SPEED_MAX) := by
  refine ⟨by norm_num [cfgD], by norm_num [cfgD], rfl, rfl, ?_, ?_, ?_⟩
  · norm_num [runTicks, PID_control, pidError, summation, summationLoop, controlUpdate, cfgD,
      cfgA, AFRL_Driver, startValue, hist]
  · norm_num [runTicks, PID_control, pidError, summation, summationLoop, controlUpdate, cfgD,
      cfgA, AFRL_Driver, startValue, hist]
  · norm_num [cfgD]

/-- C4 fails on the code: with cap `1` and step `3/4`, two ticks from the
startup state with combined error `1` (above the threshold `1/8`, previous error
`0` then `1`) give `control = 3/4` and then `control = 3/2`, not
`min (2 * (3/4)) 1 = 1`. -/
theorem ramp_overshoots_cap :
    pidError cfgD (hist 1) = some 1 ∧ cfgD.CONTROL_THRESHOLD < 1 ∧
      (AFRL_Driver cfgD).control = 0 ∧ (AFRL_Driver cfgD).pError = 0 ∧
      (runTicks cfgD [hist 1] (AFRL_Driver cfgD)).map (fun d => (d.pError, d.control))
        = some (1, 3 / 4) ∧
      (runTicks cfgD [hist 1, hist 1] (AFRL_Driver cfgD)).map (fun d => (d.pError, d.control))
        = some (1, 3 / 2) ∧
      (3 / 4 : ℚ) = min (1 * cfgD.ROTATE_CONTROL_STEP) cfgD.ROTATE_SPEED_MAX ∧
      (3 / 2 : ℚ) ≠ min (2 * cfgD.ROTATE_CONTROL_STEP) cfgD.ROTATE_SPEED_MAX := by
  refine ⟨?_, by norm_num [cfgD], rfl, rfl, ?_, ?_, by norm_num [cfgD], by norm_num [cfgD]⟩
  · norm_num [pidError, summation, summationLoop, cfgD, cfgA, hist]
  · norm_num [runTicks, PID_control, pidError, summation, summationLoop, controlUpdate, cfgD,
      cfgA, AFRL_Driver, startValue, hist]
  · norm_num [runTicks, PID_control, pidError, summation, summationLoop, controlUpdate, cfgD,
      cfgA, AFRL_Driver, startValue, hist]

/-- C2 fails on the code: one tick from the startup state (history all zero,
`control = 0`, `pError = 0`, threshold `1/10 > 0`) computes `error = 0` but
leaves `control = -1/5`, one step below zero. -/
theorem startup_tick_steps_down :
    0 < cfgA.CONTROL_THRESHOLD ∧
      (AFRL_Driver cfgA).errors = [0, 0, 0, 0, 0] ∧
      (AFRL_Driver cfgA).control = 0 ∧ (AFRL_Driver cfgA).pError = 0 ∧
      (PID_control cfgA (AFRL_Driver cfgA)).map (fun d => (d.error, d.control))
        = some (0, -(1 / 5)) := by
  refine ⟨by norm_num [cfgA], by simp [AFRL_Driver, fillErrors, cfgA], rfl, rfl, ?_⟩
  norm_num [PID_control, pidError, summation, summationLoop, controlUpdate, cfgA,
    AFRL_Driver, startValue, fillErrors]

/-- C3 fails on the code: with threshold `1/10`, combined error `1/20` (inside
the band), `control = 2/5` and `pError = 0`, a tick sets `control` to `1/5`,
not to `0`. -/
theorem in_band_tick_steps_down :
    pidError cfgA (hist (1 / 20)) = some (1 / 20) ∧
      |(1 / 20 : ℚ)| < cfgA.CONTROL_THRESHOLD ∧
      (PID_control cfgA (mkDriver (hist (1 / 20)) 0 (2 / 5))).map Driver.control
        = some (1 / 5) := by
  refine ⟨?_, ?_, ?_⟩
  · norm_num [pidError, summation, summationLoop, cfgA, hist]
  · norm_num [cfgA, abs_of_pos]
  · norm_num [PID_control, pidError, summation, summationLoop, controlUpdate, cfgA,
      mkDriver, hist]

/-- C5 fails on the code at the negative cap: with `control = -Cmax = -1/2` and
combined error `-1`, below the threshold `1/10`, a tick sets `control` to `0`
instead of leaving it at the cap. -/
theorem negative_cap_is_reset :
    (mkDriver (hist (-1)) (-1) (-(1 / 2))).control = -cfgA.ROTATE_SPEED_MAX ∧
      pidError cfgA (hist (-1)) = some (-1) ∧ (-1 : ℚ) < cfgA.CONTROL_THRESHOLD ∧
      (PID_control cfgA (mkDriver (hist (-1)) (-1) (-(1 / 2)))).map Driver.control = some 0 ∧
      (0 : ℚ) ≠ -cfgA.ROTATE_SPEED_MAX := by
  refine ⟨by norm_num [mkDriver, cfgA], ?_, by norm_num [cfgA], ?_, by norm_num [cfgA]⟩
  · norm_num [pidError, summation, summationLoop, cfgA, hist]
  · norm_num [PID_control, pidError, summation, summationLoop, controlUpdate, cfgA,
      mkDriver, hist]

/-- C6: a sign flip of the stored previous error resets `control`.  In a state
whose combined error is `err`: if `pError < 0`, `err > T` and `control < Cmax`,
the tick returns with `control = 0`; and if `pError > 0`, `err < T` and
`control > -Cmax`, the tick returns with `control = 0`. -/
theorem sign_flip_resets_control (cfg : Config) (d : Driver) (err : ℚ)
    (herr : pidError cfg d.errors = some err) :
    (d.pError < 0 → err > cfg.CONTROL_THRESHOLD → d.control < cfg.ROTATE_SPEED_MAX →
        ∃ d1, PID_control cfg d = some d1 ∧ d1.control = 0) ∧
      (d.pError > 0 → err < cfg.CONTROL_THRESHOLD → d.control > -cfg.ROTATE_SPEED_MAX →
        ∃ d1, PID_control cfg d = some d1 ∧ d1.control = 0) := by
  refine ⟨fun hp he hc => ⟨_, PID_control_of_pidError cfg d err herr, ?_⟩,
    fun hp he hc => ⟨_, PID_control_of_pidError cfg d err herr, ?_⟩⟩
  · show controlUpdate cfg err d.pError d.control = 0
    rw [controlUpdate_eq, if_pos ⟨he, hc⟩, if_pos hp]
  · show controlUpdate cfg err d.pError d.control = 0
    have h1 : ¬ (err > cfg.CONTROL_THRESHOLD ∧ d.control < cfg.ROTATE_SPEED_MAX) :=
      fun hh => absurd hh.1 (not_lt.mpr he.le)
    rw [controlUpdate_eq, if_neg h1, if_pos ⟨he, by linarith⟩, if_pos hp]

/-- Witness of C6: previous error `-1` against error `1` with `control = -2/5`,
and previous error `1` against error `-1` with `control = 2/5`. -/
theorem sign_flip_resets_control_witness :
    (∃ d1, PID_control cfgA (mkDriver (hist 1) (-1) (-(2 / 5))) = some d1 ∧ d1.control = 0) ∧
      (∃ d1, PID_control cfgA (mkDriver (hist (-1)) 1 (2 / 5)) = some d1 ∧ d1.control = 0) :=
  ⟨(sign_flip_resets_control cfgA (mkDriver (hist 1) (-1) (-(2 / 5))) 1
      (by norm_num [pidError, summation, summationLoop, cfgA, hist, mkDriver])).1
      (by norm_num [mkDriver]) (by norm_num [cfgA]) (by norm_num [mkDriver, cfgA]),
    (sign_flip_resets_control cfgA (mkDriver (hist (-1)) 1 (2 / 5)) (-1)
      (by norm_num [pidError, summation, summationLoop, cfgA, hist, mkDriver])).2
      (by norm_num [mkDriver]) (by norm_num [cfgA]) (by norm_num [mkDriver, cfgA])⟩

/-! ## The event router (C11 to C13) -/

theorem specClamp_of_clampInf (cfg : Config) (x : Dbl) (hx : x.isnan = false) :
    ∃ q, specClamp cfg x = some q ∧ clampInf cfg x = Dbl.fin q := by
  cases x <;> simp_all [specClamp, clampInf, Dbl.isinf, Dbl.isnan]

theorem frontCheck_turnCalls (mid : Dbl) (d : Driver) (h : mid.lt (Dbl.fin (1 / 2)) = true) :
    (frontCheck mid d).turnCalls = d.turnCalls ++ [⟨true, M_PI / 4, true⟩] := by
  unfold frontCheck
  rw [if_pos h]

theorem commandCallBack_forward (cfg : Config) (msg : LaserScan) (d : Driver)
    (mid r l : Dbl) (lq rq : ℚ) (hfsm : d.fsm = FSM.FSM_MOVE_FORWARD)
    (hread : readDists cfg msg = some (mid, r, l))
    (hl : clampInf cfg l = Dbl.fin lq) (hr : clampInf cfg r = Dbl.fin rq)
    (hN : 1 ≤ d.errors.length) :
    commandCallBack cfg msg d = some { frontCheck mid d with
      errors := (lq - rq) :: d.errors.take (d.errors.length - 1) } := by
  have hp := pop_back_eq d.errors (by omega)
  simp [commandCallBack, hfsm, hread, hl, hr, pushSample, Dbl.isnan, frontCheck_errors, hp,
    insert_begin]

/-- C11: in forward motion, for a scan whose two side readings are not NaN (and
a history of length at least one), `commandCallBack` returns and the sample it
puts at the front of the error history is `clamp(left) - clamp(right)`, where
`clamp` turns an infinite reading into `PROXIMITY_RANGE_M` and leaves any other
reading as it is. -/
theorem pushed_sample_is_clamped_difference (cfg : Config) (msg : LaserScan) (d : Driver)
    (mid r l : Dbl) (hfsm : d.fsm = FSM.FSM_MOVE_FORWARD)
    (hread : readDists cfg msg = some (mid, r, l))
    (hl : l.isnan = false) (hr : r.isnan = false) (hN : 1 ≤ d.errors.length) :
    ∃ d1 lq rq, commandCallBack cfg msg d = some d1 ∧
      specClamp cfg l = some lq ∧ specClamp cfg r = some rq ∧
      d1.errors[0]? = some (lq - rq) ∧
      d1.errors = (lq - rq) :: d.errors.take (d.errors.length - 1) := by
  obtain ⟨lq, hl1, hl2⟩ := specClamp_of_clampInf cfg l hl
  obtain ⟨rq, hr1, hr2⟩ := specClamp_of_clampInf cfg r hr
  exact ⟨_, lq, rq, commandCallBack_forward cfg msg d mid r l lq rq hfsm hread hl2 hr2 hN,
    hl1, hr1, by simp, rfl⟩

/-- Witness of C11: an infinite left reading against a right reading of two
metres, with `PROXIMITY_RANGE_M = 4`. -/
theorem pushed_sample_is_clamped_difference_witness :
    ∃ d1 lq rq, commandCallBack cfgA (mkScan (Dbl.fin 1) (Dbl.fin 2) Dbl.pinf)
        (mkDriver [5, 6, 7, 8, 9] 0 0) = some d1 ∧
      specClamp cfgA Dbl.pinf = some lq ∧ specClamp cfgA (Dbl.fin 2) = some rq ∧
      d1.errors[0]? = some (lq - rq) ∧
      d1.errors = (lq - rq) :: (mkDriver [5, 6, 7, 8, 9] 0 0).errors.take
        ((mkDriver [5, 6, 7, 8, 9] 0 0).errors.length - 1) :=
  pushed_sample_is_clamped_difference cfgA (mkScan (Dbl.fin 1) (Dbl.fin 2) Dbl.pinf)
    (mkDriver [5, 6, 7, 8, 9] 0 0) (Dbl.fin 1) (Dbl.fin 2) Dbl.pinf rfl
    (by simp [readDists, sideOffset, mkScan, cfgA]) rfl rfl (by simp [mkDriver])

/-- C12, as stated, fails: a scan in forward motion with centre reading `3/10`
and side readings `3` (left) and `2` (right) records one call
`turnOdom(true, M_PI/4, true)`, and the sample `3 - 2 = 1` is still pushed: the
history `[5, 6, 7, 8, 9]` becomes `[1, 5, 6, 7, 8]`. -/
theorem near_obstacle_still_pushes :
    (mkDriver [5, 6, 7, 8, 9] 0 0).fsm = FSM.FSM_MOVE_FORWARD ∧
      (Dbl.fin (3 / 10)).lt (Dbl.fin (1 / 2)) = true ∧
      (commandCallBack cfgA (mkScan (Dbl.fin (3 / 10)) (Dbl.fin 2) (Dbl.fin 3))
        (mkDriver [5, 6, 7, 8, 9] 0 0)).map (fun d => (d.turnCalls, d.errors))
        = some ([⟨true, M_PI / 4, true⟩], [1, 5, 6, 7, 8]) ∧
      ([1, 5, 6, 7, 8] : List ℚ) ≠ [5, 6, 7, 8, 9] := by
  refine ⟨rfl, by norm_num [Dbl.lt], ?_, by norm_num⟩
  rw [commandCallBack_forward cfgA _ _ (Dbl.fin (3 / 10)) (Dbl.fin 2) (Dbl.fin 3) 3 2 rfl
    (by simp [readDists, sideOffset, mkScan, cfgA]) (by simp [clampInf, Dbl.isinf])
    (by simp [clampInf, Dbl.isinf]) (by simp [mkDriver])]
  norm_num [frontCheck, Dbl.lt, mkDriver]

/-- C12, amended: in forward motion, a scan whose centre reading is below `0.5`
makes `commandCallBack` call `turnOdom` exactly once, with `clockwise = true`,
angle `M_PI / 4` and `backtrack = true`; the error computation of that scan is
not skipped: when both side readings are not NaN the sample
`clamp(left) - clamp(right)` is pushed at the front of the history, and the
history is unchanged only when a side reading is NaN. -/
theorem near_obstacle_turns_once_then_pushes (cfg : Config) (msg : LaserScan) (d : Driver)
    (mid r l : Dbl) (hfsm : d.fsm = FSM.FSM_MOVE_FORWARD)
    (hread : readDists cfg msg = some (mid, r, l))
    (hmid : mid.lt (Dbl.fin (1 / 2)) = true) (hN : 1 ≤ d.errors.length) :
    ∃ d1, commandCallBack cfg msg d = some d1 ∧
      d1.turnCalls = d.turnCalls ++ [⟨true, M_PI / 4, true⟩] ∧
      (∀ lq rq, specClamp cfg l = some lq → specClamp cfg r = some rq →
        d1.errors = (lq - rq) :: d.errors.take (d.errors.length - 1)) ∧
      (l.isnan = true ∨ r.isnan = true → d1.errors = d.errors) := by
  by_cases hnan : l.isnan = true ∨ r.isnan = true
  · refine ⟨frontCheck mid d, ?_, frontCheck_turnCalls mid d hmid, ?_,
      fun _ => frontCheck_errors mid d⟩
    · rcases hnan with h | h
      · cases l <;> simp_all [commandCallBack, Dbl.isnan, pushSample, clampInf, Dbl.isinf]
      · cases r <;> simp_all [commandCallBack, Dbl.isnan, pushSample, clampInf, Dbl.isinf]
    · intro lq rq h1 h2
      rcases hnan with h | h
      · cases l <;> simp_all [specClamp, Dbl.isnan]
      · cases r <;> simp_all [specClamp, Dbl.isnan]
  · have hl : l.isnan = false := by
      cases hh : l.isnan
      · rfl
      · exact absurd (Or.inl hh) hnan
    have hr : r.isnan = false := by
      cases hh : r.isnan
      · rfl
      · exact absurd (Or.inr hh) hnan
    obtain ⟨lq, hl1, hl2⟩ := specClamp_of_clampInf cfg l hl
    obtain ⟨rq, hr1, hr2⟩ := specClamp_of_clampInf cfg r hr
    refine ⟨_, commandCallBack_forward cfg msg d mid r l lq rq hfsm hread hl2 hr2 hN,
      frontCheck_turnCalls mid d hmid, ?_, fun h => absurd h hnan⟩
    intro lq1 rq1 h1 h2
    rw [hl1] at h1
    rw [hr1] at h2
    obtain rfl := Option.some.inj h1
    obtain rfl := Option.some.inj h2
    rfl

/-- Witness of the amended C12: centre reading `3/10`, side readings `3` and
`2`. -/
theorem near_obstacle_turns_once_then_pushes_witness :
    ∃ d1, commandCallBack cfgA (mkScan (Dbl.fin (3 / 10)) (Dbl.fin 2) (Dbl.fin 3))
        (mkDriver [5, 6, 7, 8, 9] 0 0) = some d1 ∧
      d1.turnCalls = (mkDriver [5, 6, 7, 8, 9] 0 0).turnCalls ++ [⟨true, M_PI / 4, true⟩] ∧
      (∀ lq rq, specClamp cfgA (Dbl.fin 3) = some lq → specClamp cfgA (Dbl.fin 2) = some rq →
        d1.errors = (lq - rq) :: (mkDriver [5, 6, 7, 8, 9] 0 0).errors.take
          ((mkDriver [5, 6, 7, 8, 9] 0 0).errors.length - 1)) ∧
      ((Dbl.fin 3).isnan = true ∨ (Dbl.fin 2).isnan = true →
        d1.errors = (mkDriver [5, 6, 7, 8, 9] 0 0).errors) :=
  near_obstacle_turns_once_then_pushes cfgA (mkScan (Dbl.fin (3 / 10)) (Dbl.fin 2) (Dbl.fin 3))
    (mkDriver [5, 6, 7, 8, 9] 0 0) (Dbl.fin (3 / 10)) (Dbl.fin 2) (Dbl.fin 3) rfl
    (by simp [readDists, sideOffset, mkScan, cfgA]) (by norm_num [Dbl.lt]) (by simp [mkDriver])

/-- C13: for every contact event, `bumperCallBack` with `state = PRESSED`
records exactly one call of `turnOdom`, with angle `M_PI / 4` and
`backtrack = true`, with `clockwise = true` for `LEFT` and `CENTER` and
`clockwise = false` for `RIGHT`, and changes nothing else; with a state other
than `PRESSED` it records no call and changes nothing. -/
theorem bumperCallBack_turns_by_zone (msg : BumperEvent) (d : Driver) :
    (msg.state = BumperEvent.PRESSED → msg.bumper = BumperEvent.LEFT →
        bumperCallBack msg d =
          { d with turnCalls := d.turnCalls ++ [⟨true, M_PI / 4, true⟩] }) ∧
      (msg.state = BumperEvent.PRESSED → msg.bumper = BumperEvent.CENTER →
        bumperCallBack msg d =
          { d with turnCalls := d.turnCalls ++ [⟨true, M_PI / 4, true⟩] }) ∧
      (msg.state = BumperEvent.PRESSED → msg.bumper = BumperEvent.RIGHT →
        bumperCallBack msg d =
          { d with turnCalls := d.turnCalls ++ [⟨false, M_PI / 4, true⟩] }) ∧
      (msg.state ≠ BumperEvent.PRESSED → bumperCallBack msg d = d) := by
  refine ⟨fun hs hb => ?_, fun hs hb => ?_, fun hs hb => ?_, fun hs => ?_⟩
  · simp [bumperCallBack, hs, hb, callTurnOdom]
  · simp [bumperCallBack, hs, hb, callTurnOdom, BumperEvent.CENTER, BumperEvent.LEFT,
      BumperEvent.RIGHT]
  · simp [bumperCallBack, hs, hb, callTurnOdom, BumperEvent.LEFT, BumperEvent.RIGHT]
  · simp [bumperCallBack, hs]

/-- Witness of C13: a pressed right bumper, and a released left bumper. -/
theorem bumperCallBack_turns_by_zone_witness :
    bumperCallBack ⟨BumperEvent.RIGHT, BumperEvent.PRESSED⟩ (mkDriver [5, 6, 7, 8, 9] 0 0) =
        { mkDriver [5, 6, 7, 8, 9] 0 0 with
          turnCalls := (mkDriver [5, 6, 7, 8, 9] 0 0).turnCalls ++ [⟨false, M_PI / 4, true⟩] } ∧
      bumperCallBack ⟨BumperEvent.LEFT, BumperEvent.RELEASED⟩ (mkDriver [5, 6, 7, 8, 9] 0 0) =
        mkDriver [5, 6, 7, 8, 9] 0 0 :=
  ⟨(bumperCallBack_turns_by_zone ⟨BumperEvent.RIGHT, BumperEvent.PRESSED⟩
      (mkDriver [5, 6, 7, 8, 9] 0 0)).2.2.1 rfl rfl,
    (bumperCallBack_turns_by_zone ⟨BumperEvent.LEFT, BumperEvent.RELEASED⟩
      (mkDriver [5, 6, 7, 8, 9] 0 0)).2.2.2 (by decide)⟩

/-! ## The turn manoeuvre (C14 to C16, C20) -/

theorem normalizeUp_of_nonneg (r : ℚ) (h : 0 ≤ r) : normalizeUp r = r := by
  rw [normalizeUp, if_neg (not_lt.mpr h)]

theorem normalizeDown_of_le (r : ℚ) (h : r ≤ 2 * M_PI) : normalizeDown r = r := by
  rw [normalizeDown, if_neg (not_lt.mpr h)]

theorem normalizeRadians_of_mem (r : ℚ) (h0 : 0 ≤ r) (h1 : r ≤ 2 * M_PI) :
    normalizeRadians r = r := by
  rw [normalizeRadians, normalizeUp_of_nonneg r h0, normalizeDown_of_le r h1]

theorem turnLoop_none_all (desired : Vector3) (radians : ℚ) (polls : List Poll) (n : ℕ)
    (h : turnLoop desired radians polls n = none) :
    ∀ q ∈ polls, pollDone desired radians q = false := by
  induction polls generalizing n with
  | nil => simp
  | cons p ps ih =>
    unfold turnLoop at h
    split at h
    · simp at h
    · rename_i hp
      intro q hq
      rcases List.mem_cons.mp hq with rfl | hq
      · simpa using hp
      · exact ih (n + 1) h q hq

theorem turnLoop_append (desired : Vector3) (radians : ℚ) (pre rest : List Poll) (n : ℕ)
    (h : ∀ q ∈ pre, pollDone desired radians q = false) :
    turnLoop desired radians (pre ++ rest) n = turnLoop desired radians rest (n + pre.length) := by
  induction pre generalizing n with
  | nil => simp
  | cons p ps ih =>
    have hp := h p (by simp)
    have hstep : turnLoop desired radians (p :: (ps ++ rest)) n =
        turnLoop desired radians (ps ++ rest) (n + 1) := by
      simp [turnLoop, hp]
    rw [List.cons_append, hstep, ih (n + 1) (fun q hq => h q (by simp [hq])), List.length_cons]
    congr 1
    omega

theorem turnOdom_of_passes (clockwise backtrack : Bool) (radians : ℚ) (polls : List Poll)
    (n : ℕ) (h : turnPasses clockwise radians polls = some n) :
    turnOdom clockwise radians backtrack polls = some true := by
  simp [turnOdom, h]

/-- C16: for every poll of `turnOdom` that passes the noise filter
(`fabs(angle_turned) < 1.0e-2` is false), the turn is declared done exactly when
`2 * M_PI - measured_angle` exceeds the target if the measured axis is
anti-parallel to the desired axis (negative dot product), and exactly when the
measured angle itself exceeds the target otherwise. -/
theorem poll_compares_sign_corrected_angle (clockwise : Bool) (radians : ℚ) (p : Poll)
    (hpass : ¬ |p.angle| < 1 / 100) :
    (p.axis.dot (desired_turn_axis clockwise) < 0 →
        correctedAngle (desired_turn_axis clockwise) p = 2 * M_PI - p.angle ∧
        (pollDone (desired_turn_axis clockwise) radians p = true ↔
          2 * M_PI - p.angle > radians)) ∧
      (¬ p.axis.dot (desired_turn_axis clockwise) < 0 →
        correctedAngle (desired_turn_axis clockwise) p = p.angle ∧
        (pollDone (desired_turn_axis clockwise) radians p = true ↔ p.angle > radians)) := by
  refine ⟨fun h => ⟨by simp [correctedAngle, h], ?_⟩, fun h => ⟨by simp [correctedAngle, h], ?_⟩⟩
  · unfold pollDone correctedAngle
    rw [if_neg hpass, if_pos h]
    by_cases h2 : 2 * M_PI - p.angle > radians <;> simp [h2]
  · unfold pollDone correctedAngle
    rw [if_neg hpass, if_neg h]
    by_cases h2 : p.angle > radians <;> simp [h2]

/-- Witness of C16: a measured angle of `1` about the axis `(0,0,-1)`, against
the desired axis `(0,0,1)` of a clockwise turn and against the desired axis
`(0,0,-1)` of a counter-clockwise turn. -/
theorem poll_compares_sign_corrected_angle_witness :
    (correctedAngle (desired_turn_axis true) ⟨⟨0, 0, -1⟩, 1⟩ = 2 * M_PI - 1 ∧
        (pollDone (desired_turn_axis true) (M_PI / 2) ⟨⟨0, 0, -1⟩, 1⟩ = true ↔
          2 * M_PI - 1 > M_PI / 2)) ∧
      (correctedAngle (desired_turn_axis false) ⟨⟨0, 0, -1⟩, 1⟩ = 1 ∧
        (pollDone (desired_turn_axis false) (M_PI / 2) ⟨⟨0, 0, -1⟩, 1⟩ = true ↔
          1 > M_PI / 2)) :=
  ⟨(poll_compares_sign_corrected_angle true (M_PI / 2) ⟨⟨0, 0, -1⟩, 1⟩ (by norm_num)).1
      (by norm_num [desired_turn_axis, Vector3.dot]),
    (poll_compares_sign_corrected_angle false (M_PI / 2) ⟨⟨0, 0, -1⟩, 1⟩ (by norm_num)).2
      (by norm_num [desired_turn_axis, Vector3.dot, Vector3.neg])⟩

/-- C20: for a target angle in `[0, M_PI)` (so that normalisation leaves it
unchanged) and either direction, a poll that the loop reaches and that measures
an angle `m` with `0.01 ≤ m ≤ M_PI` about an axis anti-parallel to the desired
axis ends the turn: `turnOdom` returns true at that poll. -/
theorem wrong_way_poll_ends_turn (clockwise backtrack : Bool) (radians : ℚ)
    (h0 : 0 ≤ radians) (h1 : radians < M_PI) (pre post : List Poll) (p : Poll)
    (hm : 1 / 100 ≤ p.angle ∧ p.angle ≤ M_PI)
    (hanti : p.axis.dot (desired_turn_axis clockwise) < 0)
    (hpre : turnPasses clockwise radians pre = none) :
    turnPasses clockwise radians (pre ++ p :: post) = some (pre.length + 1) ∧
      turnOdom clockwise radians backtrack (pre ++ p :: post) = some true := by
  have hpi : 0 < M_PI := by norm_num [M_PI]
  have hnorm : normalizeRadians radians = radians :=
    normalizeRadians_of_mem radians h0 (by linarith)
  have hdone : pollDone (desired_turn_axis clockwise) (normalizeRadians radians) p = true := by
    unfold pollDone correctedAngle
    rw [if_neg (by rw [abs_of_pos (by linarith)]; exact not_lt.mpr hm.1), if_pos hanti,
      if_pos (by rw [hnorm]; show radians < 2 * M_PI - p.angle; linarith)]
  have hpass : turnPasses clockwise radians (pre ++ p :: post) = some (pre.length + 1) := by
    unfold turnPasses at hpre ⊢
    rw [turnLoop_append _ _ _ _ _ (turnLoop_none_all _ _ _ 0 hpre)]
    simp [turnLoop, hdone]
  exact ⟨hpass, turnOdom_of_passes clockwise backtrack radians _ _ hpass⟩

/-- Witness of C20: a clockwise turn by `M_PI / 2` whose first measurement is
`0.01` about the axis `(0,0,-1)`. -/
theorem wrong_way_poll_ends_turn_witness :
    turnPasses true (M_PI / 2) ([] ++ (⟨⟨0, 0, -1⟩, 1 / 100⟩ : Poll) :: []) =
        some (([] : List Poll).length + 1) ∧
      turnOdom true (M_PI / 2) false ([] ++ (⟨⟨0, 0, -1⟩, 1 / 100⟩ : Poll) :: []) = some true :=
  wrong_way_poll_ends_turn true false (M_PI / 2) (by norm_num [M_PI]) (by norm_num [M_PI])
    [] [] ⟨⟨0, 0, -1⟩, 1 / 100⟩ (by norm_num [M_PI])
    (by norm_num [desired_turn_axis, Vector3.dot]) rfl

/-! ## The steering filter: the band branch (C18) -/

/-- C18: the third branch of `PID_control` is taken exactly when
`error < CONTROL_THRESHOLD` and `control ≤ -ROTATE_SPEED_MAX`, whatever the
magnitude of `error`; it is never taken when `error ≥ CONTROL_THRESHOLD`; when
it is taken the new `control` is `0`.  The last part states what each branch
assigns, so that the branch is the one `PID_control` executes. -/
theorem band_branch_gate (cfg : Config) (e p c : ℚ) :
    (controlBranch cfg e c = Branch.band ↔
        e < cfg.CONTROL_THRESHOLD ∧ c ≤ -cfg.ROTATE_SPEED_MAX) ∧
      (cfg.CONTROL_THRESHOLD ≤ e → controlBranch cfg e c ≠ Branch.band) ∧
      (controlBranch cfg e c = Branch.band → controlUpdate cfg e p c = 0) ∧
      controlUpdate cfg e p c =
        (match controlBranch cfg e c with
          | Branch.raise => if p < 0 then 0 else c + cfg.ROTATE_CONTROL_STEP
          | Branch.lower => if p > 0 then 0 else c - cfg.ROTATE_CONTROL_STEP
          | Branch.band => 0
          | Branch.skip => c) := by
  have hiff : controlBranch cfg e c = Branch.band ↔
      e < cfg.CONTROL_THRESHOLD ∧ c ≤ -cfg.ROTATE_SPEED_MAX := by
    unfold controlBranch
    simp only [fabs_flag_ne_zero]
    split_ifs with h1 h2 h3
    · exact ⟨fun h => False.elim h, fun h => absurd h.1 (not_lt.mpr h1.1.le)⟩
    · exact ⟨fun h => False.elim h, fun h => absurd h2.2 (by linarith [h.2])⟩
    · refine ⟨fun _ => ⟨h3, ?_⟩, fun _ => rfl⟩
      by_contra hc
      exact h2 ⟨h3, by linarith [not_le.mp hc]⟩
    · exact ⟨fun h => False.elim h, fun h => absurd h.1 h3⟩
  have hmatch : controlUpdate cfg e p c =
      (match controlBranch cfg e c with
        | Branch.raise => if p < 0 then 0 else c + cfg.ROTATE_CONTROL_STEP
        | Branch.lower => if p > 0 then 0 else c - cfg.ROTATE_CONTROL_STEP
        | Branch.band => 0
        | Branch.skip => c) := by
    unfold controlUpdate controlBranch
    split_ifs <;> rfl
  refine ⟨hiff, fun hge hb => absurd (hiff.mp hb).1 (not_lt.mpr hge), fun hb => ?_, hmatch⟩
  rw [hmatch, hb]

/-- Witness of C18: at `control = -1/2 = -Cmax` the band branch is taken for
the error `-1`, far below the threshold, and not for the error `1/10 = T`. -/
theorem band_branch_gate_witness :
    controlBranch cfgA (-1) (-(1 / 2)) = Branch.band ∧
      controlBranch cfgA (1 / 10) (-(1 / 2)) ≠ Branch.band ∧
      controlUpdate cfgA (-1) (-1) (-(1 / 2)) = 0 :=
  ⟨(band_branch_gate cfgA (-1) (-1) (-(1 / 2))).1.mpr (by norm_num [cfgA]),
    (band_branch_gate cfgA (1 / 10) 0 (-(1 / 2))).2.1 (by norm_num [cfgA]),
    (band_branch_gate cfgA (-1) (-1) (-(1 / 2))).2.2.1
      ((band_branch_gate cfgA (-1) (-1) (-(1 / 2))).1.mpr (by norm_num [cfgA]))⟩

end AFRL
